import Mathlib

/-!
Verification of the FTP mirror script (`ftpScript.js` and its hardened
rewrite).  The remote tree, the local filesystem, and the transport
capability are embedded shallowly: transport and local-IO failures are
an oracle (`Env`), every externally visible call is recorded as an
`Event`, and the two traversal variants are translated function by
function from the source.
-/

/-- A remote directory entry as produced by `ftpClient.list()`:
either a file or a directory with its (recursively listed) children.
The children list stands for what `list()` returns after `cd` into it. -/
inductive Entry where
  | file (name : String)
  | dir (name : String) (children : List Entry)

/-- The local filesystem as the script observes it: which file paths
`fs.promises.access` reports present, and which directory paths
`fs.existsSync` reports present. -/
structure LocalFS where
  files : List String
  dirs : List String
deriving DecidableEq

def LocalFS.hasFile (fs : LocalFS) (p : String) : Bool := fs.files.contains p

def LocalFS.hasDir (fs : LocalFS) (p : String) : Bool := fs.dirs.contains p

def LocalFS.addFile (fs : LocalFS) (p : String) : LocalFS :=
  { fs with files := p :: fs.files }

def LocalFS.addDir (fs : LocalFS) (p : String) : LocalFS :=
  { fs with dirs := p :: fs.dirs }

/-- Failure oracle for the external capabilities: which remote
change-directory, listing, fetch, remote-remove and local-mkdir calls
fail.  Keyed by the path the call is issued on. -/
structure Env where
  cdFails : String → Bool
  listFails : String → Bool
  fetchFails : String → Bool
  removeFileFails : String → Bool
  removeDirFails : String → Bool
  mkdirFails : String → Bool

/-- The all-success oracle: no external call fails. -/
def envOK : Env :=
  ⟨fun _ => false, fun _ => false, fun _ => false,
   fun _ => false, fun _ => false, fun _ => false⟩

/-- Model of `path.posix.join` as the script uses it: parent path, separator, name. -/
def pjoin (a b : String) : String := a ++ "/" ++ b

/-- Externally visible calls of one run, in issue order.  A `false`
flag records a call that the transport reported as failed. -/
inductive Event where
  | cdOk (remoteDir : String)
  | cdError (remoteDir : String)
  | listError (remoteDir : String)
  | fetch (remoteName : String) (localPath : String) (ok : Bool)
  | removeFile (remotePath : String) (ok : Bool)
  | removeDir (remotePath : String) (ok : Bool)
  | mkdir (localPath : String)
  | mkdirError (localPath : String)
deriving DecidableEq

/-- Result of a (sub)run: final local filesystem, trace of calls, and
`some msg` when an uncaught exception propagates out of the call. -/
structure RunRes where
  fs : LocalFS
  evs : List Event
  err : Option String
deriving DecidableEq

/-- Function `handleFileDownload` of the hardened script (the spec's
`reconcile`): if the local file is present, skip the download and (under
the deletion policy) attempt the guarded remote remove; otherwise fetch,
and only after a successful fetch attempt the guarded remote remove.
All failures are caught and logged, so the call never throws. -/
def handleFileDownload (env : Env) (fs : LocalFS) (remoteFileName : String)
    (currentRemoteFtpDir : String) (localFilePath : String)
    (deleteRemote : Bool) : LocalFS × List Event :=
  if fs.hasFile localFilePath then
    if deleteRemote then
      let full := pjoin currentRemoteFtpDir remoteFileName
      (fs, [Event.removeFile full (!env.removeFileFails full)])
    else
      (fs, [])
  else
    if env.fetchFails localFilePath then
      (fs, [Event.fetch remoteFileName localFilePath false])
    else
      let fs' := fs.addFile localFilePath
      if deleteRemote then
        let full := pjoin currentRemoteFtpDir remoteFileName
        (fs', [Event.fetch remoteFileName localFilePath true,
               Event.removeFile full (!env.removeFileFails full)])
      else
        (fs', [Event.fetch remoteFileName localFilePath true])

/-- The directory prologue of the hardened `downloadDirectory`: the
guarded `cd` (a failure is logged and the branch returns), the
unguarded `list` (a failure propagates), and the guarded remote delete
of a directory whose listing is empty on a fresh descent.  `r` is the
result of processing the listed entries; it is discarded when the
prologue fails, which matches the script never reaching the loop. -/
def enterDir (env : Env) (remoteDir : String) (deleteIfEmpty : Bool)
    (fs : LocalFS) (r : RunRes) : RunRes :=
  if env.cdFails remoteDir then
    ⟨fs, [Event.cdError remoteDir], none⟩
  else if env.listFails remoteDir then
    ⟨fs, [Event.cdOk remoteDir, Event.listError remoteDir], some remoteDir⟩
  else
    let pre := if deleteIfEmpty then
        [Event.removeDir remoteDir (!env.removeDirFails remoteDir)]
      else []
    ⟨r.fs, Event.cdOk remoteDir :: pre ++ r.evs, r.err⟩

mutual

/-- One iteration of the per-entry loop of the hardened
`downloadDirectory`: a directory entry gets a same-named local
directory (created if absent; a creation failure is logged and skips
only that subtree) and a recursive descent with `remoteEmpty = true`;
a file entry goes to `handleFileDownload`. -/
def processEntry (env : Env) (deleteRemote : Bool) (remoteDir localDir : String)
    (e : Entry) (fs : LocalFS) : RunRes :=
  match e with
  | Entry.file name =>
      let h := handleFileDownload env fs name remoteDir (pjoin localDir name) deleteRemote
      ⟨h.1, h.2, none⟩
  | Entry.dir name children =>
      let sub := pjoin localDir name
      let rsub := pjoin remoteDir name
      if fs.hasDir sub then
        enterDir env rsub children.isEmpty fs
          (processEntries env deleteRemote rsub sub children fs)
      else if env.mkdirFails sub then
        ⟨fs, [Event.mkdirError sub], none⟩
      else
        let fs1 := fs.addDir sub
        let r1 := enterDir env rsub children.isEmpty fs1
          (processEntries env deleteRemote rsub sub children fs1)
        ⟨r1.fs, Event.mkdir sub :: r1.evs, r1.err⟩
termination_by structural e

/-- The per-entry loop of the hardened `downloadDirectory`: entries are
processed in listing order; an exception propagating out of one entry
(only a listing failure in a descent can raise one) aborts the loop and
propagates. -/
def processEntries (env : Env) (deleteRemote : Bool) (remoteDir localDir : String)
    (entries : List Entry) (fs : LocalFS) : RunRes :=
  match entries with
  | [] => ⟨fs, [], none⟩
  | e :: rest =>
      let r1 := processEntry env deleteRemote remoteDir localDir e fs
      match r1.err with
      | some msg => ⟨r1.fs, r1.evs, some msg⟩
      | none =>
          let r2 := processEntries env deleteRemote remoteDir localDir rest r1.fs
          ⟨r2.fs, r1.evs ++ r2.evs, r2.err⟩
termination_by structural entries

end

/-- Function `downloadDirectory` of the hardened script: the prologue
(`enterDir`, with the empty-listing delete enabled only on a fresh
descent) followed by the per-entry loop.  Each recursive descent in
`processEntries` is exactly this function with `remoteEmpty = true`. -/
def downloadDirectory (env : Env) (deleteRemote : Bool) (entries : List Entry)
    (remoteDir localDir : String) (remoteEmpty : Bool) (fs : LocalFS) : RunRes :=
  enterDir env remoteDir (entries.isEmpty && remoteEmpty) fs
    (processEntries env deleteRemote remoteDir localDir entries fs)

/-- The hardened `main`: connect, then mirror the configured root with
`remoteEmpty = false`.  The returned flag says whether the run escalated
to the recovery prompt (`waitForExit`), which happens exactly when the
connect or the traversal throws. -/
def mainHardened (env : Env) (connectFails : Bool) (deleteRemote : Bool)
    (entries : List Entry) (remoteRoot localRoot : String) (fs : LocalFS) :
    Bool × RunRes :=
  if connectFails then
    (true, ⟨fs, [], some "connect"⟩)
  else
    let r := downloadDirectory env deleteRemote entries remoteRoot localRoot false fs
    (r.err.isSome, r)

/-- The fetch-then-delete sequence of the simple script's `catch`
branch: `downloadTo` and the subsequent `remove` are both unguarded, so
either failure propagates out of `downloadDirectory` and aborts the
run. -/
def simpleFetchThenDelete (env : Env) (fs : LocalFS) (name remoteDir : String)
    (localFilePath : String) (deleteRemote : Bool) : RunRes :=
  if env.fetchFails localFilePath then
    ⟨fs, [Event.fetch name localFilePath false], some localFilePath⟩
  else
    let fs' := fs.addFile localFilePath
    if deleteRemote then
      let full := pjoin remoteDir name
      if env.removeFileFails full then
        ⟨fs', [Event.fetch name localFilePath true, Event.removeFile full false], some full⟩
      else
        ⟨fs', [Event.fetch name localFilePath true, Event.removeFile full true], none⟩
    else
      ⟨fs', [Event.fetch name localFilePath true], none⟩

/-- The file branch of the simple script's `downloadDirectory`: the
`try` checks local presence and (under the policy) removes the remote
file; ANY throw inside it — including a failed remote remove — lands in
the `catch`, which re-downloads and re-deletes unguarded. -/
def handleFileSimple (env : Env) (fs : LocalFS) (name remoteDir : String)
    (localFilePath : String) (deleteRemote : Bool) : RunRes :=
  if fs.hasFile localFilePath then
    if deleteRemote then
      let full := pjoin remoteDir name
      if env.removeFileFails full then
        let r := simpleFetchThenDelete env fs name remoteDir localFilePath deleteRemote
        ⟨r.fs, Event.removeFile full false :: r.evs, r.err⟩
      else
        ⟨fs, [Event.removeFile full true], none⟩
    else
      ⟨fs, [], none⟩
  else
    simpleFetchThenDelete env fs name remoteDir localFilePath deleteRemote

/-- The directory prologue of the simple script's `downloadDirectory`:
`cd`, `list` and the empty-on-fresh-descent `removeDir` are all
unguarded, so any of their failures propagates and aborts the run. -/
def enterDirSimple (env : Env) (remoteDir : String) (deleteIfEmpty : Bool)
    (fs : LocalFS) (r : RunRes) : RunRes :=
  if env.cdFails remoteDir then
    ⟨fs, [Event.cdError remoteDir], some remoteDir⟩
  else if env.listFails remoteDir then
    ⟨fs, [Event.cdOk remoteDir, Event.listError remoteDir], some remoteDir⟩
  else if deleteIfEmpty then
    if env.removeDirFails remoteDir then
      ⟨fs, [Event.cdOk remoteDir, Event.removeDir remoteDir false], some remoteDir⟩
    else
      ⟨r.fs, Event.cdOk remoteDir :: Event.removeDir remoteDir true :: r.evs, r.err⟩
  else
    ⟨r.fs, Event.cdOk remoteDir :: r.evs, r.err⟩

mutual

/-- One iteration of the simple script's per-entry loop: `mkdirSync`
is unguarded (a creation failure aborts the run), recursive descents
pass `remoteEmpty = true`, files go to the simple file branch. -/
def processEntrySimple (env : Env) (deleteRemote : Bool) (remoteDir localDir : String)
    (e : Entry) (fs : LocalFS) : RunRes :=
  match e with
  | Entry.file name =>
      handleFileSimple env fs name remoteDir (pjoin localDir name) deleteRemote
  | Entry.dir name children =>
      let dirPath := pjoin localDir name
      let rsub := pjoin remoteDir name
      if fs.hasDir dirPath then
        enterDirSimple env rsub children.isEmpty fs
          (processEntriesSimple env deleteRemote rsub dirPath children fs)
      else if env.mkdirFails dirPath then
        ⟨fs, [Event.mkdirError dirPath], some dirPath⟩
      else
        let fs1 := fs.addDir dirPath
        let r1 := enterDirSimple env rsub children.isEmpty fs1
          (processEntriesSimple env deleteRemote rsub dirPath children fs1)
        ⟨r1.fs, Event.mkdir dirPath :: r1.evs, r1.err⟩
termination_by structural e

/-- The simple script's per-entry loop: any exception propagating out
of an iteration aborts the loop and the whole run. -/
def processEntriesSimple (env : Env) (deleteRemote : Bool) (remoteDir localDir : String)
    (entries : List Entry) (fs : LocalFS) : RunRes :=
  match entries with
  | [] => ⟨fs, [], none⟩
  | e :: rest =>
      let r1 := processEntrySimple env deleteRemote remoteDir localDir e fs
      match r1.err with
      | some msg => ⟨r1.fs, r1.evs, some msg⟩
      | none =>
          let r2 := processEntriesSimple env deleteRemote remoteDir localDir rest r1.fs
          ⟨r2.fs, r1.evs ++ r2.evs, r2.err⟩
termination_by structural entries

end

/-- Function `downloadDirectory` of the simple script (`ftpScript.js`): the
unguarded prologue followed by the per-entry loop. -/
def downloadDirectorySimple (env : Env) (deleteRemote : Bool) (entries : List Entry)
    (remoteDir localDir : String) (remoteEmpty : Bool) (fs : LocalFS) : RunRes :=
  enterDirSimple env remoteDir (entries.isEmpty && remoteEmpty) fs
    (processEntriesSimple env deleteRemote remoteDir localDir entries fs)

/-- The simple script's `main`: connect, then mirror the configured
root with `remoteEmpty = false`; any exception out of the traversal is
caught by `main` and escalates to the recovery prompt. -/
def mainSimple (env : Env) (connectFails : Bool) (deleteRemote : Bool)
    (entries : List Entry) (remoteRoot localRoot : String) (fs : LocalFS) :
    Bool × RunRes :=
  if connectFails then
    (true, ⟨fs, [], some "connect"⟩)
  else
    let r := downloadDirectorySimple env deleteRemote entries remoteRoot localRoot false fs
    (r.err.isSome, r)

/-- The observable actions of one pass through the recovery prompt. -/
inductive RecoveryAction where
  | invokeRun
  | invokeRestart
  | closePrompt
deriving DecidableEq

/-- Function `waitForExit` of the hardened script, as the sequence of actions it
takes after reading `answer`: on `"1"` with a callback, re-invoke the
run; on `"2"` with a callback, invoke `restartFTP` and then re-invoke
the run; otherwise close the prompt resource and let the process end. -/
def waitForExit (hasCallback : Bool) (answer : String) : List RecoveryAction :=
  if answer == "1" && hasCallback then
    [RecoveryAction.invokeRun]
  else if answer == "2" && hasCallback then
    [RecoveryAction.invokeRestart, RecoveryAction.invokeRun]
  else
    [RecoveryAction.closePrompt]

/-- The three-way dispatch exactly as the spec's recovery-prompt
sentence states it, for comparison with `waitForExit` at its only call
site (where the callback is `main`, hence present). -/
def recoveryDispatchSpec (answer : String) : List RecoveryAction :=
  if answer == "1" then
    [RecoveryAction.invokeRun]
  else if answer == "2" then
    [RecoveryAction.invokeRestart, RecoveryAction.invokeRun]
  else
    [RecoveryAction.closePrompt]

/-- The slice of the SSH session configuration that `restartFTP`
manipulates: the optional agent, the optional key path from
`config.json`, and the optional in-memory key attached to the
connection object. -/
structure SshSessionConfig where
  agent : Option String
  privateKeyPath : Option String
  privateKey : Option String
deriving DecidableEq

/-- The configuration build of the hardened `restartFTP`: start from a
copy of `config.sshConfig`; when `privateKeyPath` is present, try to
read the key file — on success attach the key and drop any agent
setting, on failure make sure no key is attached and fall back to the
remaining methods.  `readFileSync` returns `none` when the key file is
absent or unreadable. -/
def buildSshConnectionConfig (cfg : SshSessionConfig)
    (readFileSync : String → Option String) : SshSessionConfig :=
  match cfg.privateKeyPath with
  | none => cfg
  | some p =>
      match readFileSync p with
      | some key => { cfg with privateKey := some key, agent := none }
      | none => { cfg with privateKey := none }

mutual

/-- The local paths of all files in the subtree rooted at one entry,
relative to `localDir`, as the traversal computes them. -/
def entryFilePaths (localDir : String) (e : Entry) : List String :=
  match e with
  | Entry.file name => [pjoin localDir name]
  | Entry.dir name children => filePaths (pjoin localDir name) children
termination_by structural e

/-- The local paths of all files under a listing, relative to
`localDir`. -/
def filePaths (localDir : String) (entries : List Entry) : List String :=
  match entries with
  | [] => []
  | e :: rest => entryFilePaths localDir e ++ filePaths localDir rest
termination_by structural entries

end

/-- An oracle under which every remote file remove fails and everything
else succeeds. -/
def envRm : Env := { envOK with removeFileFails := fun _ => true }

/-- An oracle under which every fetch fails and everything else
succeeds. -/
def envFetchFail : Env := { envOK with fetchFails := fun _ => true }

/-- An oracle under which every local directory creation fails and
everything else succeeds. -/
def envMkdir : Env := { envOK with mkdirFails := fun _ => true }

/-- An oracle under which only the change into `/root` fails. -/
def envCdRoot : Env := { envOK with cdFails := fun p => p == "/root" }

/-- An oracle under which only the change into `/r/sub` fails. -/
def envCdSub : Env := { envOK with cdFails := fun p => p == "/r/sub" }

/-- Transfer events. -/
def isFetchEv : Event → Bool
  | Event.fetch _ _ _ => true
  | _ => false

/-- Remote directory deletions. -/
def isRemoveDirEv : Event → Bool
  | Event.removeDir _ _ => true
  | _ => false

/-- Claim C1: a remote file deletion is issued by `handleFileDownload`
only when the local file was already present at entry or the fetch in
the same invocation reported success; afterwards a local copy of the
file exists in either case. -/
theorem reconcile_deletion_safety (env : Env) (fs : LocalFS)
    (name rdir lp : String) (del : Bool) (p : String) (ok : Bool)
    (hmem : Event.removeFile p ok ∈ (handleFileDownload env fs name rdir lp del).2) :
    (fs.hasFile lp = true
      ∨ Event.fetch name lp true ∈ (handleFileDownload env fs name rdir lp del).2)
    ∧ ((handleFileDownload env fs name rdir lp del).1).hasFile lp = true := by
  cases h1 : fs.hasFile lp with
  | true =>
      refine ⟨Or.inl rfl, ?_⟩
      cases del <;> simp [handleFileDownload, h1]
  | false =>
      cases h2 : env.fetchFails lp with
      | true => simp [handleFileDownload, h1, h2] at hmem
      | false =>
          have h1' : lp ∉ fs.files := by simpa [LocalFS.hasFile] using h1
          refine ⟨Or.inr ?_, ?_⟩ <;>
            cases del <;>
              simp [handleFileDownload, h1', h2, LocalFS.addFile, LocalFS.hasFile] at hmem ⊢

/-- Witness for C1 at a concrete input on which a remote deletion is
issued. -/
theorem reconcile_deletion_safety_witness :
    (⟨["L/a"], []⟩ : LocalFS).hasFile "L/a" = true
      ∨ Event.fetch "a" "L/a" true ∈ (handleFileDownload envOK ⟨["L/a"], []⟩ "a" "/r" "L/a" true).2 := by
  exact (reconcile_deletion_safety envOK ⟨["L/a"], []⟩ "a" "/r" "L/a" true "/r/a" true
    (by decide)).1

/-- Claim C2: when no local file exists and the fetch fails,
`handleFileDownload` returns normally having only logged the failed
fetch — no remote deletion, no local file created — and the per-entry
loop goes on with the remaining entries. -/
theorem reconcile_fetch_failure_atomic (env : Env) (fs : LocalFS)
    (name rdir ld : String) (del : Bool) (rest : List Entry)
    (h1 : fs.hasFile (pjoin ld name) = false)
    (h2 : env.fetchFails (pjoin ld name) = true) :
    handleFileDownload env fs name rdir (pjoin ld name) del
      = (fs, [Event.fetch name (pjoin ld name) false])
    ∧ processEntries env del rdir ld (Entry.file name :: rest) fs
      = ⟨(processEntries env del rdir ld rest fs).fs,
         Event.fetch name (pjoin ld name) false :: (processEntries env del rdir ld rest fs).evs,
         (processEntries env del rdir ld rest fs).err⟩ := by
  constructor
  · simp [handleFileDownload, h1, h2]
  · simp [processEntries, processEntry, handleFileDownload, h1, h2]

/-- Witness for C2: a failed fetch of a single file leaves the local
filesystem empty, logs one failed fetch, and the loop still reaches the
following entry. -/
theorem reconcile_fetch_failure_atomic_witness :
    handleFileDownload envFetchFail ⟨[], []⟩ "a" "/r" (pjoin "L" "a") true
      = (⟨[], []⟩, [Event.fetch "a" (pjoin "L" "a") false]) := by
  exact (reconcile_fetch_failure_atomic envFetchFail ⟨[], []⟩ "a" "/r" "L" true []
    (by decide) (by decide)).1

/-- Claim C3: a failed remote remove in `handleFileDownload` is logged
and swallowed — in the already-present branch the local filesystem is
untouched, in the after-fetch branch the downloaded file is kept — and
a file entry never makes the per-entry loop abort. -/
theorem reconcile_remove_failure_nonfatal (env : Env) (fs : LocalFS)
    (name rdir ld : String) (rest : List Entry)
    (hrm : env.removeFileFails (pjoin rdir name) = true) :
    (fs.hasFile (pjoin ld name) = true →
      handleFileDownload env fs name rdir (pjoin ld name) true
        = (fs, [Event.removeFile (pjoin rdir name) false]))
    ∧ (fs.hasFile (pjoin ld name) = false → env.fetchFails (pjoin ld name) = false →
      handleFileDownload env fs name rdir (pjoin ld name) true
        = (fs.addFile (pjoin ld name),
           [Event.fetch name (pjoin ld name) true,
            Event.removeFile (pjoin rdir name) false]))
    ∧ (∀ del fs0, (processEntries env del rdir ld (Entry.file name :: rest) fs0).err
        = (processEntries env del rdir ld rest
            (handleFileDownload env fs0 name rdir (pjoin ld name) del).1).err) := by
  refine ⟨?_, ?_, ?_⟩
  · intro h1; simp [handleFileDownload, h1, hrm]
  · intro h1 h2; simp [handleFileDownload, h1, h2, hrm]
  · intro del fs0; simp [processEntries, processEntry]

/-- Witness for C3 in the already-present branch with a failing remote
remove. -/
theorem reconcile_remove_failure_nonfatal_witness :
    handleFileDownload envRm ⟨["L/a"], []⟩ "a" "/r" (pjoin "L" "a") true
      = (⟨["L/a"], []⟩, [Event.removeFile (pjoin "/r" "a") false]) := by
  exact (reconcile_remove_failure_nonfatal envRm ⟨["L/a"], []⟩ "a" "/r" "L" []
    (by decide)).1 (by decide)

/-- Claim C6: at its call site (callback present), the recovery prompt
is exactly the spec's three-way dispatch — `"1"` re-invokes the run
and nothing else, `"2"` invokes the restart capability and then
re-invokes the run, and any other input only releases the prompt and
lets the process terminate. -/
theorem waitForExit_three_way_dispatch (answer : String) :
    waitForExit true answer = recoveryDispatchSpec answer := by
  simp [waitForExit, recoveryDispatchSpec]

/-- Claim C9: when a private-key path is configured and the key file is
readable, the restart session uses that key and drops any agent
setting; when the path is absent or the file unreadable, no key is
attached and the agent setting is left as configured. -/
theorem restartFTP_auth_precedence (cfg : SshSessionConfig)
    (readFileSync : String → Option String) :
    (∀ p key, cfg.privateKeyPath = some p → readFileSync p = some key →
      (buildSshConnectionConfig cfg readFileSync).privateKey = some key ∧
      (buildSshConnectionConfig cfg readFileSync).agent = none)
    ∧ (cfg.privateKey = none →
      (cfg.privateKeyPath = none
        ∨ ∀ p, cfg.privateKeyPath = some p → readFileSync p = none) →
      (buildSshConnectionConfig cfg readFileSync).privateKey = none ∧
      (buildSshConnectionConfig cfg readFileSync).agent = cfg.agent) := by
  constructor
  · intro p key hp hk
    simp [buildSshConnectionConfig, hp, hk]
  · intro hnone hcase
    cases hpath : cfg.privateKeyPath with
    | none => simp [buildSshConnectionConfig, hpath, hnone]
    | some p =>
        rcases hcase with h | h
        · rw [hpath] at h; exact absurd h (by simp)
        · simp [buildSshConnectionConfig, hpath, h p hpath]

/-- Joint induction over an entry and a listing, from the nested
recursor of `Entry`. -/
theorem Entry.mutualInduction {P : Entry → Prop} {Q : List Entry → Prop}
    (hfile : ∀ n, P (Entry.file n))
    (hdir : ∀ n cs, Q cs → P (Entry.dir n cs))
    (hnil : Q [])
    (hcons : ∀ e es, P e → Q es → Q (e :: es)) :
    (∀ e, P e) ∧ (∀ es, Q es) := by
  have hP : ∀ e, P e := fun e => @Entry.rec P Q hfile hdir hnil hcons e
  refine ⟨hP, ?_⟩
  intro es
  induction es with
  | nil => exact hnil
  | cons e es ih => exact hcons e es (hP e) ih

/-- A kept file stays present after recording another download. -/
theorem LocalFS.hasFile_addFile (fs : LocalFS) (p q : String)
    (h : fs.hasFile p = true) : (fs.addFile q).hasFile p = true := by
  simp [LocalFS.hasFile, LocalFS.addFile] at h ⊢
  exact Or.inr h

/-- Creating a directory does not change which files are present. -/
theorem LocalFS.hasFile_addDir (fs : LocalFS) (p q : String)
    (h : fs.hasFile p = true) : (fs.addDir q).hasFile p = true := by
  simpa [LocalFS.hasFile, LocalFS.addDir] using h

/-- Reconciliation never issues a remote directory deletion. -/
theorem handleFileDownload_no_removeDir (env : Env) (fs : LocalFS)
    (name rdir lp : String) (del : Bool) (p : String) (ok : Bool) :
    Event.removeDir p ok ∉ (handleFileDownload env fs name rdir lp del).2 := by
  cases h1 : fs.hasFile lp <;> cases del <;>
    cases h2 : env.fetchFails lp <;>
      simp [handleFileDownload, h1, h2]

/-- The local-filesystem effect of `handleFileDownload` does not depend
on the deletion policy flag. -/
theorem handleFileDownload_fs_del_indep (env : Env) (fs : LocalFS)
    (name rdir lp : String) (d d' : Bool) :
    (handleFileDownload env fs name rdir lp d).1
      = (handleFileDownload env fs name rdir lp d').1 := by
  cases h1 : fs.hasFile lp <;> cases d <;> cases d' <;>
    cases h2 : env.fetchFails lp <;>
      simp [handleFileDownload, h1, h2]

/-- The length of a joined path exceeds the length of its parent. -/
theorem pjoin_length (a b : String) : (pjoin a b).length = a.length + b.length + 1 := by
  have h : ("/" : String).length = 1 := rfl
  simp [pjoin, String.length_append, h]
  omega

/-- Reconciliation keeps every file that was already present. -/
theorem handleFileDownload_keeps (env : Env) (fs : LocalFS)
    (name rdir lp : String) (del : Bool) (p : String) (h : fs.hasFile p = true) :
    ((handleFileDownload env fs name rdir lp del).1).hasFile p = true := by
  cases h1 : fs.hasFile lp <;> cases del <;> cases h2 : env.fetchFails lp <;>
    simp only [handleFileDownload, h1, h2, Bool.false_eq_true, if_true, if_false,
      Bool.true_eq_false, ite_true, ite_false] <;>
    first
      | exact h
      | exact LocalFS.hasFile_addFile fs p lp h

/-- The prologue result keeps either the filesystem it was given or the
one produced by the loop. -/
theorem enterDir_fs (env : Env) (rd : String) (b : Bool) (fs : LocalFS) (r : RunRes) :
    (enterDir env rd b fs r).fs = fs ∨ (enterDir env rd b fs r).fs = r.fs := by
  unfold enterDir
  split
  · exact Or.inl rfl
  · split
    · exact Or.inl rfl
    · exact Or.inr rfl

/-- Files present before a hardened traversal step are still present
after it: the traversal only ever adds local files. -/
theorem traversal_keeps :
    (∀ e, ∀ env del rd ld fs p, fs.hasFile p = true →
      ((processEntry env del rd ld e fs).fs).hasFile p = true)
    ∧ (∀ es, ∀ env del rd ld fs p, fs.hasFile p = true →
      ((processEntries env del rd ld es fs).fs).hasFile p = true) := by
  apply Entry.mutualInduction
  · intro n env del rd ld fs p h
    simp only [processEntry]
    exact handleFileDownload_keeps env fs n rd (pjoin ld n) del p h
  · intro n cs ih env del rd ld fs p h
    simp only [processEntry]
    cases h3 : fs.hasDir (pjoin ld n) with
    | true =>
        simp only [h3, if_true]
        rcases enterDir_fs env (pjoin rd n) cs.isEmpty fs
            (processEntries env del (pjoin rd n) (pjoin ld n) cs fs) with he | he <;>
          rw [he]
        · exact h
        · exact ih env del _ _ fs p h
    | false =>
        cases h4 : env.mkdirFails (pjoin ld n) with
        | true => simp only [h3, h4, Bool.false_eq_true, if_false, if_true]; exact h
        | false =>
            simp only [h3, h4, Bool.false_eq_true, if_false]
            rcases enterDir_fs env (pjoin rd n) cs.isEmpty (fs.addDir (pjoin ld n))
                (processEntries env del (pjoin rd n) (pjoin ld n) cs
                  (fs.addDir (pjoin ld n))) with he | he <;>
              simp only [he]
            · exact LocalFS.hasFile_addDir fs p _ h
            · exact ih env del _ _ _ p (LocalFS.hasFile_addDir fs p _ h)
  · intro env del rd ld fs p h
    simpa [processEntries] using h
  · intro e es pe qes env del rd ld fs p h
    simp only [processEntries]
    cases herr : (processEntry env del rd ld e fs).err <;> simp only [herr]
    · exact qes env del rd ld _ p (pe env del rd ld fs p h)
    · exact pe env del rd ld fs p h

/-- Every event of a prologue result is one of its own four calls or
an event of the loop result it wraps. -/
theorem enterDir_evs_mem (env : Env) (rd : String) (b : Bool) (fs : LocalFS)
    (r : RunRes) (x : Event) (h : x ∈ (enterDir env rd b fs r).evs) :
    x = Event.cdError rd ∨ x = Event.cdOk rd ∨ x = Event.listError rd
    ∨ x = Event.removeDir rd (!env.removeDirFails rd) ∨ x ∈ r.evs := by
  unfold enterDir at h
  split at h
  · simp at h; tauto
  · split at h
    · simp at h; tauto
    · cases b <;> simp at h <;> tauto

/-- With no listing failures, the prologue either swallows the branch
or passes the loop's error through. -/
theorem enterDir_err (env : Env) (rd : String) (b : Bool) (fs : LocalFS)
    (r : RunRes) (hl : env.listFails rd = false) :
    (enterDir env rd b fs r).err = none ∨ (enterDir env rd b fs r).err = r.err := by
  unfold enterDir
  split
  · exact Or.inl rfl
  · split
    · next hc => rw [hl] at hc; simp at hc
    · exact Or.inr rfl

/-- Under the all-success oracle the reconciled file is locally present
afterwards. -/
theorem handleFileDownload_envOK_gets (fs : LocalFS) (name rdir lp : String)
    (del : Bool) : ((handleFileDownload envOK fs name rdir lp del).1).hasFile lp = true := by
  by_cases h1 : lp ∈ fs.files <;> cases del <;>
    simp [handleFileDownload, envOK, LocalFS.addFile, LocalFS.hasFile, h1]

/-- A locally present file is never fetched. -/
theorem handleFileDownload_present_no_fetch (env : Env) (fs : LocalFS)
    (name rdir lp : String) (del : Bool) (h : fs.hasFile lp = true) :
    ((handleFileDownload env fs name rdir lp del).2).filter isFetchEv = [] := by
  cases del <;> simp [handleFileDownload, h, isFetchEv]

/-- With the deletion policy off, reconciliation issues no remote file
deletion. -/
theorem handleFileDownload_off_no_removeFile (env : Env) (fs : LocalFS)
    (name rdir lp p : String) (ok : Bool) :
    Event.removeFile p ok ∉ (handleFileDownload env fs name rdir lp false).2 := by
  cases h1 : fs.hasFile lp <;> cases h2 : env.fetchFails lp <;>
    simp [handleFileDownload, h1, h2]

/-- With no listing failures the hardened traversal swallows every
error: it never lets an exception propagate. -/
theorem traversal_err_none :
    (∀ e, ∀ env del rd ld fs, (∀ q, env.listFails q = false) →
      (processEntry env del rd ld e fs).err = none)
    ∧ (∀ es, ∀ env del rd ld fs, (∀ q, env.listFails q = false) →
      (processEntries env del rd ld es fs).err = none) := by
  apply Entry.mutualInduction
  · intro n env del rd ld fs hl
    simp [processEntry]
  · intro n cs ih env del rd ld fs hl
    simp only [processEntry]
    cases h3 : fs.hasDir (pjoin ld n) with
    | true =>
        simp only [h3, if_true]
        rcases enterDir_err env (pjoin rd n) cs.isEmpty fs
            (processEntries env del (pjoin rd n) (pjoin ld n) cs fs)
            (hl (pjoin rd n)) with he | he <;> rw [he]
        exact ih env del _ _ fs hl
    | false =>
        cases h4 : env.mkdirFails (pjoin ld n) with
        | true => simp [h3, h4]
        | false =>
            simp only [h3, h4, Bool.false_eq_true, if_false]
            rcases enterDir_err env (pjoin rd n) cs.isEmpty (fs.addDir (pjoin ld n))
                (processEntries env del (pjoin rd n) (pjoin ld n) cs
                  (fs.addDir (pjoin ld n))) (hl (pjoin rd n)) with he | he <;>
              simp only [he]
            exact ih env del _ _ _ hl
  · intro env del rd ld fs hl
    simp [processEntries]
  · intro e es pe qes env del rd ld fs hl
    simp only [processEntries, pe env del rd ld fs hl]
    exact qes env del rd ld _ hl

/-- Under the all-success oracle the prologue reduces to its success
branch. -/
theorem enterDir_envOK (rd : String) (b : Bool) (fs : LocalFS) (r : RunRes) :
    enterDir envOK rd b fs r
      = ⟨r.fs, Event.cdOk rd ::
          (if b then [Event.removeDir rd true] else []) ++ r.evs, r.err⟩ := by
  simp [enterDir, envOK]

/-- Under the all-success oracle every file of the traversed subtree is
locally present after the traversal. -/
theorem traversal_covers :
    (∀ e, ∀ del rd ld fs p, p ∈ entryFilePaths ld e →
      ((processEntry envOK del rd ld e fs).fs).hasFile p = true)
    ∧ (∀ es, ∀ del rd ld fs p, p ∈ filePaths ld es →
      ((processEntries envOK del rd ld es fs).fs).hasFile p = true) := by
  apply Entry.mutualInduction
  · intro n del rd ld fs p hp
    simp only [entryFilePaths, List.mem_singleton] at hp
    subst hp
    simp only [processEntry]
    exact handleFileDownload_envOK_gets fs n rd (pjoin ld n) del
  · intro n cs ih del rd ld fs p hp
    simp only [entryFilePaths] at hp
    simp only [processEntry]
    cases h3 : fs.hasDir (pjoin ld n) with
    | true =>
        rw [if_pos rfl, enterDir_envOK]
        exact ih del _ _ fs p hp
    | false =>
        rw [if_neg (by simp), if_neg (by simp [envOK]), enterDir_envOK]
        exact ih del _ _ _ p hp
  · intro del rd ld fs p hp
    simp [filePaths] at hp
  · intro e es pe qes del rd ld fs p hp
    have herr := traversal_err_none.1 e envOK del rd ld fs (fun _ => rfl)
    simp only [processEntries, herr]
    simp only [filePaths, List.mem_append] at hp
    rcases hp with hp | hp
    · exact traversal_keeps.2 es envOK del rd ld _ p (pe del rd ld fs p hp)
    · exact qes del rd ld _ p hp

/-- Under the all-success oracle a traversal of a subtree whose files
are all locally present performs no transfer. -/
theorem traversal_no_fetch :
    (∀ e, ∀ del rd ld fs, (∀ p, p ∈ entryFilePaths ld e → fs.hasFile p = true) →
      ((processEntry envOK del rd ld e fs).evs).filter isFetchEv = [])
    ∧ (∀ es, ∀ del rd ld fs, (∀ p, p ∈ filePaths ld es → fs.hasFile p = true) →
      ((processEntries envOK del rd ld es fs).evs).filter isFetchEv = []) := by
  apply Entry.mutualInduction
  · intro n del rd ld fs hp
    simp only [processEntry]
    exact handleFileDownload_present_no_fetch envOK fs n rd (pjoin ld n) del
      (hp _ (by simp [entryFilePaths]))
  · intro n cs ih del rd ld fs hp
    simp only [processEntry]
    have hp' : ∀ p, p ∈ filePaths (pjoin ld n) cs → fs.hasFile p = true := by
      intro p h
      exact hp p (by simpa [entryFilePaths] using h)
    cases h3 : fs.hasDir (pjoin ld n) with
    | true =>
        rw [if_pos rfl, enterDir_envOK]
        cases hb : cs.isEmpty <;>
          simp [hb, List.filter_append, isFetchEv, ih del _ _ fs hp']
    | false =>
        rw [if_neg (by simp), if_neg (by simp [envOK]), enterDir_envOK]
        have hp'' : ∀ p, p ∈ filePaths (pjoin ld n) cs →
            (fs.addDir (pjoin ld n)).hasFile p = true :=
          fun p h => LocalFS.hasFile_addDir fs p _ (hp' p h)
        cases hb : cs.isEmpty <;>
          simp [hb, List.filter_append, isFetchEv, ih del _ _ _ hp'']
  · intro del rd ld fs hp
    simp [processEntries]
  · intro e es pe qes del rd ld fs hp
    have h1 := pe del rd ld fs
      (fun p h => hp p (by simp only [filePaths, List.mem_append]; exact Or.inl h))
    have herr := traversal_err_none.1 e envOK del rd ld fs (fun _ => rfl)
    simp only [processEntries, herr]
    have hkeep : ∀ p, p ∈ filePaths ld es →
        ((processEntry envOK del rd ld e fs).fs).hasFile p = true :=
      fun p h => traversal_keeps.1 e envOK del rd ld fs p
        (hp p (by simp only [filePaths, List.mem_append]; exact Or.inr h))
    simp [List.filter_append, h1, qes del rd ld _ hkeep]

/-- A trace without remote directory deletions filters to nothing. -/
theorem noRemoveDir_filter (l : List Event)
    (h : ∀ p ok, Event.removeDir p ok ∉ l) : l.filter isRemoveDirEv = [] := by
  rw [List.filter_eq_nil_iff]
  intro a ha
  cases a <;> simp [isRemoveDirEv]
  exact h _ _ ha

/-- Every remote directory deletion of a traversal step happens
strictly below the directory the step was called on. -/
theorem traversal_removeDir_len :
    (∀ e, ∀ env del rd ld fs p ok,
      Event.removeDir p ok ∈ (processEntry env del rd ld e fs).evs → rd.length < p.length)
    ∧ (∀ es, ∀ env del rd ld fs p ok,
      Event.removeDir p ok ∈ (processEntries env del rd ld es fs).evs → rd.length < p.length) := by
  apply Entry.mutualInduction
  · intro n env del rd ld fs p ok h
    simp only [processEntry] at h
    exact absurd h (handleFileDownload_no_removeDir env fs n rd (pjoin ld n) del p ok)
  · intro n cs ih env del rd ld fs p ok h
    have key : ∀ fs', Event.removeDir p ok ∈ (enterDir env (pjoin rd n) cs.isEmpty fs'
        (processEntries env del (pjoin rd n) (pjoin ld n) cs fs')).evs →
        rd.length < p.length := by
      intro fs' hm
      rcases enterDir_evs_mem env (pjoin rd n) cs.isEmpty fs' _ _ hm with
        h1 | h1 | h1 | h1 | h1
      · simp at h1
      · simp at h1
      · simp at h1
      · have hp : p = pjoin rd n := by
          cases h1; rfl
        rw [hp, pjoin_length]
        omega
      · have := ih env del (pjoin rd n) (pjoin ld n) fs' p ok h1
        have h2 := pjoin_length rd n
        omega
    simp only [processEntry] at h
    split at h
    · exact key fs h
    · split at h
      · simp at h
      · simp only [List.mem_cons] at h
        rcases h with h | h
        · simp at h
        · exact key _ h
  · intro env del rd ld fs p ok h
    simp [processEntries] at h
  · intro e es pe qes env del rd ld fs p ok h
    simp only [processEntries] at h
    cases herr : (processEntry env del rd ld e fs).err with
    | some m =>
        rw [herr] at h
        simp only [] at h
        exact pe env del rd ld fs p ok h
    | none =>
        rw [herr] at h
        simp only [List.mem_append] at h
        rcases h with h | h
        · exact pe env del rd ld fs p ok h
        · exact qes env del rd ld _ p ok h

/-- The prologue preserves componentwise agreement of two loop results
(up to the remote-directory-deletion filter on the traces). -/
theorem enterDir_push (env : Env) (rd : String) (b : Bool) (fs : LocalFS)
    (r r' : RunRes) (hfs : r.fs = r'.fs) (herr : r.err = r'.err)
    (hfil : r.evs.filter isRemoveDirEv = r'.evs.filter isRemoveDirEv) :
    (enterDir env rd b fs r).fs = (enterDir env rd b fs r').fs
    ∧ (enterDir env rd b fs r).err = (enterDir env rd b fs r').err
    ∧ ((enterDir env rd b fs r).evs).filter isRemoveDirEv
        = ((enterDir env rd b fs r').evs).filter isRemoveDirEv := by
  unfold enterDir
  split
  · exact ⟨rfl, rfl, rfl⟩
  · split
    · exact ⟨rfl, rfl, rfl⟩
    · refine ⟨hfs, herr, ?_⟩
      cases b <;> simp [List.filter_append, isRemoveDirEv, hfil]

/-- The deletion policy flag changes neither the resulting local
filesystem, nor error propagation, nor which remote directories get
deleted. -/
theorem traversal_flag_indep :
    (∀ e, ∀ env rd ld fs,
      (processEntry env true rd ld e fs).fs = (processEntry env false rd ld e fs).fs
      ∧ (processEntry env true rd ld e fs).err = (processEntry env false rd ld e fs).err
      ∧ ((processEntry env true rd ld e fs).evs).filter isRemoveDirEv
          = ((processEntry env false rd ld e fs).evs).filter isRemoveDirEv)
    ∧ (∀ es, ∀ env rd ld fs,
      (processEntries env true rd ld es fs).fs = (processEntries env false rd ld es fs).fs
      ∧ (processEntries env true rd ld es fs).err = (processEntries env false rd ld es fs).err
      ∧ ((processEntries env true rd ld es fs).evs).filter isRemoveDirEv
          = ((processEntries env false rd ld es fs).evs).filter isRemoveDirEv) := by
  apply Entry.mutualInduction
  · intro n env rd ld fs
    refine ⟨?_, rfl, ?_⟩
    · simpa [processEntry] using
        handleFileDownload_fs_del_indep env fs n rd (pjoin ld n) true false
    · simp only [processEntry]
      rw [noRemoveDir_filter _ (handleFileDownload_no_removeDir env fs n rd (pjoin ld n) true),
        noRemoveDir_filter _ (handleFileDownload_no_removeDir env fs n rd (pjoin ld n) false)]
  · intro n cs ih env rd ld fs
    obtain ⟨hfs, herr, hfil⟩ := ih env (pjoin rd n) (pjoin ld n) fs
    simp only [processEntry]
    cases h3 : fs.hasDir (pjoin ld n) with
    | true =>
        simp only [if_pos rfl]
        exact enterDir_push env (pjoin rd n) cs.isEmpty fs _ _ hfs herr hfil
    | false =>
        cases h4 : env.mkdirFails (pjoin ld n) with
        | true => simp
        | false =>
            obtain ⟨hfs1, herr1, hfil1⟩ := ih env (pjoin rd n) (pjoin ld n)
              (fs.addDir (pjoin ld n))
            obtain ⟨g1, g2, g3⟩ := enterDir_push env (pjoin rd n) cs.isEmpty
              (fs.addDir (pjoin ld n)) _ _ hfs1 herr1 hfil1
            simp [g1, g2, g3, isRemoveDirEv]
  · intro env rd ld fs
    exact ⟨rfl, rfl, rfl⟩
  · intro e es pe qes env rd ld fs
    obtain ⟨hfs, herr, hfil⟩ := pe env rd ld fs
    simp only [processEntries]
    cases hT : (processEntry env true rd ld e fs).err with
    | some m =>
        have hF : (processEntry env false rd ld e fs).err = some m := by
          rw [← herr]; exact hT
        rw [hF]
        exact ⟨hfs, rfl, hfil⟩
    | none =>
        have hF : (processEntry env false rd ld e fs).err = none := by
          rw [← herr]; exact hT
        rw [hF, hfs]
        obtain ⟨g1, g2, g3⟩ := qes env rd ld ((processEntry env false rd ld e fs).fs)
        exact ⟨g1, g2, by simp [List.filter_append, hfil, g3]⟩

/-- With the deletion policy off, the traversal never issues a remote
file deletion. -/
theorem traversal_no_removeFile_off :
    (∀ e, ∀ env rd ld fs p ok,
      Event.removeFile p ok ∉ (processEntry env false rd ld e fs).evs)
    ∧ (∀ es, ∀ env rd ld fs p ok,
      Event.removeFile p ok ∉ (processEntries env false rd ld es fs).evs) := by
  apply Entry.mutualInduction
  · intro n env rd ld fs p ok
    simp only [processEntry]
    exact handleFileDownload_off_no_removeFile env fs n rd (pjoin ld n) p ok
  · intro n cs ih env rd ld fs p ok
    intro h
    have key : ∀ fs', Event.removeFile p ok ∈ (enterDir env (pjoin rd n) cs.isEmpty fs'
        (processEntries env false (pjoin rd n) (pjoin ld n) cs fs')).evs → False := by
      intro fs' hm
      rcases enterDir_evs_mem env (pjoin rd n) cs.isEmpty fs' _ _ hm with
        h1 | h1 | h1 | h1 | h1
      · simp at h1
      · simp at h1
      · simp at h1
      · simp at h1
      · exact ih env (pjoin rd n) (pjoin ld n) fs' p ok h1
    simp only [processEntry] at h
    split at h
    · exact key fs h
    · split at h
      · simp at h
      · simp only [List.mem_cons] at h
        rcases h with h | h
        · simp at h
        · exact key _ h
  · intro env rd ld fs p ok
    simp [processEntries]
  · intro e es pe qes env rd ld fs p ok
    intro h
    simp only [processEntries] at h
    cases herr : (processEntry env false rd ld e fs).err with
    | some m =>
        rw [herr] at h
        exact pe env rd ld fs p ok h
    | none =>
        rw [herr] at h
        simp only [List.mem_append] at h
        rcases h with h | h
        · exact pe env rd ld fs p ok h
        · exact qes env rd ld _ p ok h

/-- Without its empty-listing delete the prologue only records its own
navigation calls besides the loop's events. -/
theorem enterDir_evs_mem_false (env : Env) (rd : String) (fs : LocalFS)
    (r : RunRes) (x : Event) (h : x ∈ (enterDir env rd false fs r).evs) :
    x = Event.cdError rd ∨ x = Event.cdOk rd ∨ x = Event.listError rd ∨ x ∈ r.evs := by
  unfold enterDir at h
  split at h
  · simp at h; tauto
  · split at h
    · simp at h; tauto
    · simp at h; tauto

/-- Claim C4: a directory whose listing succeeds and is empty is
remotely deleted exactly when the descent is fresh; a non-empty listing
never triggers a deletion of that directory; every recursive descent is
`downloadDirectory` with `remoteEmpty = true`; and the configured root,
mirrored by `main` with `remoteEmpty = false`, is never remotely
deleted. -/
theorem mirror_empty_dir_cleanup :
    (∀ env del rd ld b fs, env.cdFails rd = false → env.listFails rd = false →
      downloadDirectory env del [] rd ld b fs
        = ⟨fs, Event.cdOk rd ::
            (if b then [Event.removeDir rd (!env.removeDirFails rd)] else []), none⟩)
    ∧ (∀ env del es rd ld b fs ok, es ≠ [] →
      Event.removeDir rd ok ∉ (downloadDirectory env del es rd ld b fs).evs)
    ∧ (∀ env del n cs rd ld fs, fs.hasDir (pjoin ld n) = true →
      processEntry env del rd ld (Entry.dir n cs) fs
        = downloadDirectory env del cs (pjoin rd n) (pjoin ld n) true fs)
    ∧ (∀ env del n cs rd ld fs, fs.hasDir (pjoin ld n) = false →
        env.mkdirFails (pjoin ld n) = false →
      processEntry env del rd ld (Entry.dir n cs) fs
        = ⟨(downloadDirectory env del cs (pjoin rd n) (pjoin ld n) true
              (fs.addDir (pjoin ld n))).fs,
           Event.mkdir (pjoin ld n) ::
             (downloadDirectory env del cs (pjoin rd n) (pjoin ld n) true
               (fs.addDir (pjoin ld n))).evs,
           (downloadDirectory env del cs (pjoin rd n) (pjoin ld n) true
             (fs.addDir (pjoin ld n))).err⟩)
    ∧ (∀ env c del es root ld fs ok,
      Event.removeDir root ok ∉ (mainHardened env c del es root ld fs).2.evs) := by
  refine ⟨?_, ?_, ?_, ?_, ?_⟩
  · intro env del rd ld b fs h1 h2
    cases b <;> simp [downloadDirectory, processEntries, enterDir, h1, h2]
  · intro env del es rd ld b fs ok hne h
    have hie : es.isEmpty = false := by
      cases es with
      | nil => exact absurd rfl hne
      | cons x xs => rfl
    unfold downloadDirectory at h
    rw [hie, Bool.false_and] at h
    rcases enterDir_evs_mem_false env rd fs _ _ h with h1 | h1 | h1 | h1
    · simp at h1
    · simp at h1
    · simp at h1
    · have := traversal_removeDir_len.2 es env del rd ld fs rd ok h1
      omega
  · intro env del n cs rd ld fs h1
    simp only [processEntry, downloadDirectory, Bool.and_true]
    rw [if_pos h1]
  · intro env del n cs rd ld fs h1 h2
    simp only [processEntry, downloadDirectory, Bool.and_true]
    rw [if_neg (by simp [h1]), if_neg (by simp [h2])]
  · intro env c del es root ld fs ok h
    unfold mainHardened at h
    cases c with
    | true => simp at h
    | false =>
        simp only [Bool.false_eq_true, if_false] at h
        unfold downloadDirectory at h
        rw [Bool.and_false] at h
        rcases enterDir_evs_mem_false env root fs _ _ h with h1 | h1 | h1 | h1
        · simp at h1
        · simp at h1
        · simp at h1
        · have := traversal_removeDir_len.2 es env del root ld fs root ok h1
          omega

/-- Witness for C4: a fresh, empty, reachable directory is remotely
deleted. -/
theorem mirror_empty_dir_cleanup_witness :
    downloadDirectory envOK true [] "/data/empty" "L/empty" true ⟨[], []⟩
      = ⟨⟨[], []⟩, Event.cdOk "/data/empty" ::
          (if true then [Event.removeDir "/data/empty" (!envOK.removeDirFails "/data/empty")]
           else []), none⟩ :=
  mirror_empty_dir_cleanup.1 envOK true "/data/empty" "L/empty" true ⟨[], []⟩ rfl rfl

/-- Claim C5: a locally present file is never fetched, and a second
run of the mirror over the unchanged tree — every fetch of the first
run having succeeded — performs zero transfers. -/
theorem mirror_presence_skip_idempotent :
    (∀ env fs n rd lp del, fs.hasFile lp = true →
      ((handleFileDownload env fs n rd lp del).2).filter isFetchEv = [])
    ∧ (∀ del es rd ld fs,
      ((downloadDirectory envOK false es rd ld false
        ((downloadDirectory envOK del es rd ld false fs).fs)).evs).filter isFetchEv = []) := by
  constructor
  · exact fun env fs n rd lp del h =>
      handleFileDownload_present_no_fetch env fs n rd lp del h
  · intro del es rd ld fs
    have hcov : ∀ p, p ∈ filePaths ld es →
        ((processEntries envOK del rd ld es fs).fs).hasFile p = true :=
      fun p hp => traversal_covers.2 es del rd ld fs p hp
    have hnf := traversal_no_fetch.2 es false rd ld
      ((processEntries envOK del rd ld es fs).fs) hcov
    simp only [downloadDirectory, enterDir_envOK, Bool.and_false]
    simp [isFetchEv, List.filter_append, hnf]

/-- Witness for C5: a present file produces no transfer event. -/
theorem mirror_presence_skip_idempotent_witness :
    ((handleFileDownload envOK ⟨["L/a"], []⟩ "a" "/r" "L/a" true).2).filter isFetchEv = [] :=
  mirror_presence_skip_idempotent.1 envOK ⟨["L/a"], []⟩ "a" "/r" "L/a" true (by decide)

/-- Counterexample for C7 as stated: in the hardened script a failed
change into the configured root is caught inside `downloadDirectory`,
so the run completes without escalating to the recovery prompt; and in
the simple script a failed change into a subdirectory aborts the whole
run, so the sibling file entry is never fetched. -/
theorem navigation_failure_scope_counterexample :
    ((mainHardened envCdRoot false true [Entry.file "a"] "/root" "L" ⟨[], []⟩).1 = false
      ∧ (mainHardened envCdRoot false true [Entry.file "a"] "/root" "L" ⟨[], []⟩).2
          = ⟨⟨[], []⟩, [Event.cdError "/root"], none⟩)
    ∧ ((mainSimple envCdSub false true [Entry.dir "sub" [], Entry.file "b"]
          "/r" "L" ⟨[], []⟩).1 = true
      ∧ Event.fetch "b" "L/b" true
          ∉ (mainSimple envCdSub false true [Entry.dir "sub" [], Entry.file "b"]
              "/r" "L" ⟨[], []⟩).2.evs) := by
  decide

/-- Claim C7 (amended): in the hardened script every change-directory
failure — at the configured root as much as in a nested descent — only
aborts that branch: the mirror logs, returns, lets siblings continue
and never escalates to the recovery prompt; in the simple script the
call is unguarded at every level, so a change-directory failure at any
depth aborts the whole run and escalates. -/
theorem navigation_failure_scope_amended :
    (∀ env del es rd ld b fs, env.cdFails rd = true →
      downloadDirectory env del es rd ld b fs = ⟨fs, [Event.cdError rd], none⟩)
    ∧ (∀ env del es root ld fs, env.cdFails root = true →
      (mainHardened env false del es root ld fs).1 = false)
    ∧ (∀ env del n cs rest rd ld fs, fs.hasDir (pjoin ld n) = true →
        env.cdFails (pjoin rd n) = true →
      processEntries env del rd ld (Entry.dir n cs :: rest) fs
        = ⟨(processEntries env del rd ld rest fs).fs,
           Event.cdError (pjoin rd n) :: (processEntries env del rd ld rest fs).evs,
           (processEntries env del rd ld rest fs).err⟩)
    ∧ (∀ env del es rd ld b fs, env.cdFails rd = true →
      downloadDirectorySimple env del es rd ld b fs = ⟨fs, [Event.cdError rd], some rd⟩)
    ∧ (∀ env del n cs rest rd ld fs, fs.hasDir (pjoin ld n) = true →
        env.cdFails (pjoin rd n) = true →
      processEntriesSimple env del rd ld (Entry.dir n cs :: rest) fs
        = ⟨fs, [Event.cdError (pjoin rd n)], some (pjoin rd n)⟩)
    ∧ (∀ env del es root ld fs, env.cdFails root = true →
      (mainSimple env false del es root ld fs).1 = true) := by
  refine ⟨?_, ?_, ?_, ?_, ?_, ?_⟩
  · intro env del es rd ld b fs h
    simp [downloadDirectory, enterDir, h]
  · intro env del es root ld fs h
    simp [mainHardened, downloadDirectory, enterDir, h]
  · intro env del n cs rest rd ld fs h1 h2
    simp [processEntries, processEntry, enterDir, h1, h2]
  · intro env del es rd ld b fs h
    simp [downloadDirectorySimple, enterDirSimple, h]
  · intro env del n cs rest rd ld fs h1 h2
    simp [processEntriesSimple, processEntrySimple, enterDirSimple, h1, h2]
  · intro env del es root ld fs h
    simp [mainSimple, downloadDirectorySimple, enterDirSimple, h]

/-- Witness for the amended C7: with the change into `/root` failing,
the hardened mirror returns the logged branch abort, and the simple
mirror propagates the exception. -/
theorem navigation_failure_scope_amended_witness :
    downloadDirectory envCdRoot true [Entry.file "a"] "/root" "L" false ⟨[], []⟩
      = ⟨⟨[], []⟩, [Event.cdError "/root"], none⟩
    ∧ downloadDirectorySimple envCdRoot true [Entry.file "a"] "/root" "L" false ⟨[], []⟩
      = ⟨⟨[], []⟩, [Event.cdError "/root"], some "/root"⟩ :=
  ⟨navigation_failure_scope_amended.1 envCdRoot true [Entry.file "a"] "/root" "L" false
      ⟨[], []⟩ (by decide),
   navigation_failure_scope_amended.2.2.2.1 envCdRoot true [Entry.file "a"] "/root" "L" false
      ⟨[], []⟩ (by decide)⟩

/-- Claim C8: a directory entry creates its local directory only when
absent; when that creation fails the mirror logs it, does not descend
into the subtree, and keeps processing the remaining siblings. -/
theorem mirror_mkdir_failure_isolation (env : Env) (del : Bool)
    (n : String) (cs rest : List Entry) (rd ld : String) (fs : LocalFS) :
    (fs.hasDir (pjoin ld n) = false → env.mkdirFails (pjoin ld n) = true →
      processEntries env del rd ld (Entry.dir n cs :: rest) fs
        = ⟨(processEntries env del rd ld rest fs).fs,
           Event.mkdirError (pjoin ld n) :: (processEntries env del rd ld rest fs).evs,
           (processEntries env del rd ld rest fs).err⟩)
    ∧ (fs.hasDir (pjoin ld n) = false → env.mkdirFails (pjoin ld n) = false →
      Event.mkdir (pjoin ld n)
        ∈ (processEntries env del rd ld (Entry.dir n cs :: rest) fs).evs)
    ∧ (fs.hasDir (pjoin ld n) = true →
      processEntry env del rd ld (Entry.dir n cs) fs
        = enterDir env (pjoin rd n) cs.isEmpty fs
            (processEntries env del (pjoin rd n) (pjoin ld n) cs fs)) := by
  refine ⟨?_, ?_, ?_⟩
  · intro h1 h2
    simp [processEntries, processEntry, h1, h2]
  · intro h1 h2
    simp only [processEntries, processEntry]
    rw [if_neg (by simp [h1]), if_neg (by simp [h2])]
    cases herr : (enterDir env (pjoin rd n) cs.isEmpty (fs.addDir (pjoin ld n))
        (processEntries env del (pjoin rd n) (pjoin ld n) cs
          (fs.addDir (pjoin ld n)))).err <;>
      simp [herr]
  · intro h1
    simp only [processEntry]
    rw [if_pos h1]

/-- Witness for C8: a failing local directory creation is logged and
the loop result is that of the remaining entries. -/
theorem mirror_mkdir_failure_isolation_witness :
    processEntries envMkdir true "/r" "L" [Entry.dir "sub" []] ⟨[], []⟩
      = ⟨(processEntries envMkdir true "/r" "L" [] ⟨[], []⟩).fs,
         Event.mkdirError (pjoin "L" "sub")
           :: (processEntries envMkdir true "/r" "L" [] ⟨[], []⟩).evs,
         (processEntries envMkdir true "/r" "L" [] ⟨[], []⟩).err⟩ :=
  (mirror_mkdir_failure_isolation envMkdir true "sub" [] [] "/r" "L" ⟨[], []⟩).1
    (by decide) (by decide)

/-- Claim C10 (implicit): the empty-directory remote deletion is not
gated by the `deleteRemoteFiles` policy flag — the flag changes neither
which remote directories get deleted nor anything else except remote
file deletions, which it alone enables — and a fresh empty descent is
deleted even with the flag off. -/
theorem empty_dir_cleanup_ignores_delete_flag :
    (∀ env es rd ld b fs,
      (downloadDirectory env true es rd ld b fs).fs
          = (downloadDirectory env false es rd ld b fs).fs
      ∧ (downloadDirectory env true es rd ld b fs).err
          = (downloadDirectory env false es rd ld b fs).err
      ∧ ((downloadDirectory env true es rd ld b fs).evs).filter isRemoveDirEv
          = ((downloadDirectory env false es rd ld b fs).evs).filter isRemoveDirEv)
    ∧ (∀ env es rd ld b fs p ok,
      Event.removeFile p ok ∉ (downloadDirectory env false es rd ld b fs).evs)
    ∧ (∀ env n rest rd ld fs, fs.hasDir (pjoin ld n) = true →
        env.cdFails (pjoin rd n) = false → env.listFails (pjoin rd n) = false →
      Event.removeDir (pjoin rd n) (!env.removeDirFails (pjoin rd n))
        ∈ (processEntries env false rd ld (Entry.dir n [] :: rest) fs).evs) := by
  refine ⟨?_, ?_, ?_⟩
  · intro env es rd ld b fs
    obtain ⟨hfs, herr, hfil⟩ := traversal_flag_indep.2 es env rd ld fs
    exact enterDir_push env rd (es.isEmpty && b) fs _ _ hfs herr hfil
  · intro env es rd ld b fs p ok h
    unfold downloadDirectory at h
    rcases enterDir_evs_mem env rd (es.isEmpty && b) fs _ _ h with h1 | h1 | h1 | h1 | h1
    · simp at h1
    · simp at h1
    · simp at h1
    · simp at h1
    · exact traversal_no_removeFile_off.2 es env rd ld fs p ok h1
  · intro env n rest rd ld fs h1 h2 h3
    simp only [processEntries, processEntry]
    rw [if_pos h1]
    simp [processEntries, enterDir, h2, h3]

/-- Witness for C10: with the policy flag off, a fresh empty reachable
subdirectory is still remotely deleted. -/
theorem empty_dir_cleanup_ignores_delete_flag_witness :
    Event.removeDir (pjoin "/r" "sub") (!envOK.removeDirFails (pjoin "/r" "sub"))
      ∈ (processEntries envOK false "/r" "L" [Entry.dir "sub" []] ⟨[], ["L/sub"]⟩).evs :=
  empty_dir_cleanup_ignores_delete_flag.2.2 envOK "sub" [] "/r" "L" ⟨[], ["L/sub"]⟩
    (by decide) rfl rfl

/-- Witness for C9: a readable key replaces the agent, an unreadable
one leaves the agent in place. -/
theorem restartFTP_auth_precedence_witness :
    ((buildSshConnectionConfig ⟨some "pageant", some "/k", none⟩
        (fun _ => some "KEY")).privateKey = some "KEY" ∧
     (buildSshConnectionConfig ⟨some "pageant", some "/k", none⟩
        (fun _ => some "KEY")).agent = none)
    ∧ ((buildSshConnectionConfig ⟨some "pageant", some "/k", none⟩
        (fun _ => none)).privateKey = none ∧
       (buildSshConnectionConfig ⟨some "pageant", some "/k", none⟩
        (fun _ => none)).agent = some "pageant") := by
  constructor
  · exact (restartFTP_auth_precedence ⟨some "pageant", some "/k", none⟩
      (fun _ => some "KEY")).1 "/k" "KEY" rfl rfl
  · exact (restartFTP_auth_precedence ⟨some "pageant", some "/k", none⟩
      (fun _ => none)).2 rfl (Or.inr (fun _ _ => rfl))

